import Mathlib

/-!
Verification development for the `parallel-exec` library
(`parallel-exec/lib/lib.go`): a bounded-concurrency command executor.

The Go source is shallowly embedded: the `cmdController` mutex-protected
state machine becomes a pure state type with one Lean function per atomic
(lock-protected) section, the channel-based `semaphore` becomes an
`Option`-state with blocking modelled as `Option.none` results, and
`runner.Run`'s goroutines become a small-step interleaving semantics driven
by an explicit schedule of atomic actions.
-/

namespace ParallelExec

/-- A command, modelling the parts of Go's `exec.Cmd` the library reads:
`Path` and `Args`.  `Process` (whether `cmd.Process != nil`, i.e. whether
`Start` has succeeded) is tracked in the controller state instead. -/
structure Cmd where
  Path : String
  Args : List String
deriving DecidableEq, Repr

/-- Models `os/exec.Command(name, args...)` from the Go standard library in
the case where `name` is used as-is (no PATH resolution rewrites it):
`Path` is set to `name` and `Args` is `name` followed by `args`. -/
def execCommand (name : String) (args : List String) : Cmd :=
  ⟨name, name :: args⟩

/-- Embeds `cmdString` (lib.go): `strings.Join(append([]string{cmd.Path}, cmd.Args...), " ")`. -/
def cmdString (cmd : Cmd) : String :=
  String.intercalate " " (cmd.Path :: cmd.Args)

/-- Embeds `EventType` (lib.go): the four event kinds emitted during a run. -/
inductive EventType where
  | started
  | cmdStarted
  | cmdFinished
  | finished
deriving DecidableEq, Repr

/-- Embeds the `event` struct (lib.go): kind `E`, time `T`, fields `F`.
Go's `map[string]string` is embedded as an association list; times are
abstract clock ticks (the clock is injectable in the source). -/
structure Event where
  E : EventType
  T : Nat
  F : List (String × String)
deriving DecidableEq, Repr

/-- Embeds `newEvent` (lib.go). -/
def newEvent (e : EventType) (t : Nat) (f : List (String × String)) : Event :=
  ⟨e, t, f⟩

/-- Embeds `newStartedEvent` (lib.go): a run-started event with no fields. -/
def newStartedEvent (t : Nat) : Event :=
  newEvent .started t []

/-- Embeds `newCmdStartedEvent` (lib.go): fields carry the command string. -/
def newCmdStartedEvent (t : Nat) (cmd : Cmd) : Event :=
  newEvent .cmdStarted t [("cmd", cmdString cmd)]

/-- Embeds `newCmdFinishedEvent` (lib.go): fields carry the command string,
the duration since `startTime` (rendered as the tick difference), and, when
the error is non-nil, an "err" field with the error text. -/
def newCmdFinishedEvent (t : Nat) (cmd : Cmd) (startTime : Nat)
    (err : Option String) : Event :=
  newEvent .cmdFinished t
    ([("cmd", cmdString cmd), ("duration", toString (t - startTime))] ++
      (match err with
       | some e => [("err", e)]
       | none => []))

/-- Embeds `newFinishedEvent` (lib.go): fields carry the run duration and,
when the error is non-nil, an "err" field with the error text. -/
def newFinishedEvent (t : Nat) (startTime : Nat) (err : Option String) : Event :=
  newEvent .finished t
    ([("duration", toString (t - startTime))] ++
      (match err with
       | some e => [("err", e)]
       | none => []))

/-- Embeds the mutable state of the `cmdController` struct (lib.go):
`Started`, `Finished`, `StartTime`, and `Process` standing for
`Cmd.Process != nil` (set exactly when `Cmd.Start()` succeeds). -/
structure CmdController where
  Started : Bool
  Finished : Bool
  Process : Bool
  StartTime : Nat
deriving DecidableEq, Repr

/-- Embeds `newCmdController` (lib.go): unstarted, unfinished, start time
taken from the clock at construction. -/
def newCmdController (t : Nat) : CmdController :=
  ⟨false, false, false, t⟩

/-- Result of the first lock-protected section of `cmdController.Run`:
either the re-entry guard fired, or the launch failed, or the process was
launched and `Run` proceeds to `Cmd.Wait()`. -/
inductive RunEnterRes where
  | alreadyDone
  | startFailed
  | launched
deriving DecidableEq, Repr

/-- Embeds the first lock-protected section of `cmdController.Run`
(lib.go lines 323-340): the re-entry guard, marking started, emitting
`cmd_started`, and attempting `Cmd.Start()`.  `t1` and `t2` are the values
of the two possible clock calls; `startErr` is the environment's answer to
`Cmd.Start()` (`none` = success). -/
def cmdCtrlRunEnter (cmd : Cmd) (t1 t2 : Nat) (startErr : Option String)
    (c : CmdController) : CmdController × List Event × RunEnterRes :=
  if c.Started || c.Finished then
    (c, [], .alreadyDone)
  else
    let c1 : CmdController := { c with Started := true, StartTime := t1 }
    let ev1 := newCmdStartedEvent t1 cmd
    match startErr with
    | some e =>
      let msg := "command could not start: " ++ cmdString cmd ++ ": " ++ e
      ({ c1 with Finished := true },
        [ev1, newCmdFinishedEvent t2 cmd c1.StartTime (some msg)], .startFailed)
    | none =>
      ({ c1 with Process := true }, [ev1], .launched)

/-- Embeds the tail of `cmdController.Run` after `Cmd.Wait()` returns
(lib.go lines 341-354): wrap the wait error, re-acquire the lock, skip if a
concurrent `Kill` already finished the controller, otherwise mark finished,
emit `cmd_finished`, and return `err == nil`.  `waitErr` is the
environment's answer to `Cmd.Wait()`. -/
def cmdCtrlRunExit (cmd : Cmd) (t : Nat) (waitErr : Option String)
    (c : CmdController) : CmdController × List Event × Bool :=
  let err := waitErr.map (fun e => "command had error: " ++ cmdString cmd ++ ": " ++ e)
  if c.Finished then
    (c, [], true)
  else
    ({ c with Finished := true },
      [newCmdFinishedEvent t cmd c.StartTime err], err == none)

/-- Embeds `cmdController.Kill` (lib.go lines 356-376): if never started,
mark started and finished and emit nothing; if already finished, no-op;
otherwise mark finished and, when the process exists, kill it and emit
`cmd_finished` carrying the kill error if the kill itself failed.
`killErr` is the environment's answer to `Process.Kill()`. -/
def cmdCtrlKill (cmd : Cmd) (t : Nat) (killErr : Option String)
    (c : CmdController) : CmdController × List Event :=
  if !c.Started then
    ({ c with Started := true, Finished := true }, [])
  else if c.Finished then
    (c, [])
  else
    let c1 : CmdController := { c with Finished := true }
    if c.Process then
      let err := killErr.map
        (fun e => "command had error on kill: " ++ cmdString cmd ++ ": " ++ e)
      (c1, [newCmdFinishedEvent t cmd c.StartTime err])
    else
      (c1, [])

/-- A full sequential `cmdController.Run` call with no interference between
its two lock-protected sections: enter, and if the process launched, wait
and exit.  Returns the final controller state, the emitted events, and
`Run`'s boolean result. -/
def cmdControllerRun (cmd : Cmd) (t1 t2 t3 : Nat) (startErr waitErr : Option String)
    (c : CmdController) : CmdController × List Event × Bool :=
  match cmdCtrlRunEnter cmd t1 t2 startErr c with
  | (c1, evs, .alreadyDone) => (c1, evs, true)
  | (c1, evs, .startFailed) => (c1, evs, false)
  | (c1, evs, .launched) =>
    let (c2, evs2, b) := cmdCtrlRunExit cmd t3 waitErr c1
    (c2, evs ++ evs2, b)

/-- Embeds the `semaphore` type (lib.go): a buffered channel of capacity
`n` pre-filled with `n` tokens, or the nil channel.  `none` is the nil
channel; `some (cap, tokens)` is a channel of capacity `cap` currently
holding `tokens` tokens. -/
def Semaphore := Option (Nat × Nat)
deriving DecidableEq, Repr

/-- Embeds `newSemaphore` (lib.go): nil when `n <= 0`, otherwise a channel
of capacity `n` filled with `n` tokens. -/
def newSemaphore (n : Int) : Semaphore :=
  if n ≤ 0 then none else some (n.toNat, n.toNat)

/-- One channel receive on a non-nil semaphore: takes a token, or blocks
(returns `none`) when the channel is empty. -/
def recvToken (ct : Nat × Nat) : Option (Nat × Nat) :=
  if 0 < ct.2 then some (ct.1, ct.2 - 1) else none

/-- One channel send on a non-nil semaphore: returns a token, or blocks
(returns `none`) when the channel is full. -/
def sendToken (ct : Nat × Nat) : Option (Nat × Nat) :=
  if ct.2 < ct.1 then some (ct.1, ct.2 + 1) else none

/-- The receive loop of `semaphore.P`. -/
def recvLoop : Nat → Nat × Nat → Option (Nat × Nat)
  | 0, ct => some ct
  | k + 1, ct => (recvToken ct).bind (recvLoop k)

/-- The send loop of `semaphore.V`. -/
def sendLoop : Nat → Nat × Nat → Option (Nat × Nat)
  | 0, ct => some ct
  | k + 1, ct => (sendToken ct).bind (sendLoop k)

/-- Embeds `semaphore.P` (lib.go): returns immediately on the nil channel,
otherwise performs `n` receives; a `none` result means the call blocks. -/
def semaphoreP (s : Semaphore) (n : Nat) : Option Semaphore :=
  match s with
  | none => some none
  | some ct => (recvLoop n ct).map some

/-- Embeds `semaphore.V` (lib.go): returns immediately on the nil channel,
otherwise performs `n` sends; a `none` result means the call blocks. -/
def semaphoreV (s : Semaphore) (n : Nat) : Option Semaphore :=
  match s with
  | none => some none
  | some ct => (sendLoop n ct).map some

/-- An atomic operation on one `cmdController`, with the environment's
choices (clock readings, `Start`/`Wait`/`Kill` outcomes) attached. -/
inductive CtrlOp where
  | runEnterOp (t1 t2 : Nat) (startErr : Option String)
  | runExitOp (t : Nat) (waitErr : Option String)
  | killOp (t : Nat) (killErr : Option String)
deriving DecidableEq, Repr

/-- Apply one atomic controller operation. -/
def ctrlApply (cmd : Cmd) (c : CmdController) : CtrlOp → CmdController × List Event
  | .runEnterOp t1 t2 se => ((cmdCtrlRunEnter cmd t1 t2 se c).1, (cmdCtrlRunEnter cmd t1 t2 se c).2.1)
  | .runExitOp t we => ((cmdCtrlRunExit cmd t we c).1, (cmdCtrlRunExit cmd t we c).2.1)
  | .killOp t ke => cmdCtrlKill cmd t ke c

/-- The lock protocol of the source: a `runExitOp` (the post-`Wait` section
of `Run`) can only execute on a controller whose `Run` already passed the
first section, so `Started` is already true; the other operations can start
at any time. -/
def ctrlOpOK (c : CmdController) : CtrlOp → Prop
  | .runExitOp _ _ => c.Started = true
  | _ => True

/-- Controller states reachable from `newCmdController` by interleavings of
`Run` and `Kill` sections respecting the lock protocol. -/
inductive CtrlReach (cmd : Cmd) : CmdController → Prop where
  | init (t0 : Nat) : CtrlReach cmd (newCmdController t0)
  | step {c : CmdController} (op : CtrlOp) (h : CtrlReach cmd c)
      (hok : ctrlOpOK c op) : CtrlReach cmd (ctrlApply cmd c op).1

/-- One controller step preserves the invariant that `Finished` implies
`Started`, provided the step respects the lock protocol. -/
theorem ctrlApply_fin_imp_started {cmd : Cmd} {c : CmdController} (op : CtrlOp)
    (hok : ctrlOpOK c op) (hinv : c.Finished = true → c.Started = true) :
    (ctrlApply cmd c op).1.Finished = true → (ctrlApply cmd c op).1.Started = true := by
  cases op with
  | runEnterOp t1 t2 se =>
    cases hs : c.Started <;> cases hf : c.Finished <;>
      cases se <;> simp [ctrlApply, cmdCtrlRunEnter, hs, hf]
    all_goals exact absurd (hinv hf) (by simp [hs])
  | runExitOp t we =>
    simp only [ctrlOpOK] at hok
    cases hf : c.Finished
    · simp [ctrlApply, cmdCtrlRunExit, hf, hok]
    · simp only [ctrlApply, cmdCtrlRunExit, hf, if_pos]
      intro
      exact hinv hf
  | killOp t ke =>
    cases hs : c.Started <;> cases hf : c.Finished
    · simp [ctrlApply, cmdCtrlKill, hs]
    · simp [ctrlApply, cmdCtrlKill, hs]
    · cases hp : c.Process <;> simp [ctrlApply, cmdCtrlKill, hs, hf, hp]
    · simp [ctrlApply, cmdCtrlKill, hs, hf]

/-- On every reachable controller state, `Finished` implies `Started`. -/
theorem ctrlReach_finished_started {cmd : Cmd} {c : CmdController}
    (h : CtrlReach cmd c) : c.Finished = true → c.Started = true := by
  induction h with
  | init t0 => intro h; simp [newCmdController] at h
  | step op h hok ih => exact ctrlApply_fin_imp_started op hok ih

/-- The value of the "err" field of an event, when present. -/
def eventErr (ev : Event) : Option String :=
  ev.F.lookup "err"

/-- Number of `cmd_finished` events in a list. -/
def countFinishedEvents (es : List Event) : Nat :=
  (es.filter (fun e => e.E == .cmdFinished)).length

/-- Claim C2: on every reachable controller and every protocol-respecting
`Run`/`Kill` section, `Started` and `Finished` only ever transition
false→true, and once `Finished` is true the section leaves the state
unchanged and emits no event. -/
theorem ctrl_flags_monotone_finished_stable (cmd : Cmd) (c : CmdController)
    (op : CtrlOp) (h : CtrlReach cmd c) (hok : ctrlOpOK c op) :
    (c.Started = true → (ctrlApply cmd c op).1.Started = true) ∧
    (c.Finished = true → (ctrlApply cmd c op).1.Finished = true) ∧
    (c.Finished = true → ctrlApply cmd c op = (c, [])) := by
  have hinv := ctrlReach_finished_started h
  refine ⟨?_, ?_, ?_⟩
  · intro hs
    cases op with
    | runEnterOp t1 t2 se =>
      cases se <;> simp [ctrlApply, cmdCtrlRunEnter, hs]
    | runExitOp t we =>
      cases hf : c.Finished <;> simp [ctrlApply, cmdCtrlRunExit, hf, hs]
    | killOp t ke =>
      cases hf : c.Finished
      · cases hp : c.Process <;> simp [ctrlApply, cmdCtrlKill, hs, hf, hp]
      · simp [ctrlApply, cmdCtrlKill, hs, hf]
  · intro hf
    cases op with
    | runEnterOp t1 t2 se =>
      cases se <;> simp [ctrlApply, cmdCtrlRunEnter, hf]
    | runExitOp t we =>
      simp [ctrlApply, cmdCtrlRunExit, hf]
    | killOp t ke =>
      cases hs : c.Started <;> simp [ctrlApply, cmdCtrlKill, hs, hf]
  · intro hf
    have hs := hinv hf
    cases op with
    | runEnterOp t1 t2 se =>
      cases se <;> simp [ctrlApply, cmdCtrlRunEnter, hf]
    | runExitOp t we =>
      simp [ctrlApply, cmdCtrlRunExit, hf]
    | killOp t ke =>
      simp [ctrlApply, cmdCtrlKill, hs, hf]

/-- Witness for claim C2 at a concrete reachable controller: a freshly
constructed controller on which a kill section runs. -/
theorem ctrl_flags_monotone_finished_stable_witness :
    ((newCmdController 0).Started = true →
      (ctrlApply ⟨"/bin/true", []⟩ (newCmdController 0) (.killOp 1 none)).1.Started = true) ∧
    ((newCmdController 0).Finished = true →
      (ctrlApply ⟨"/bin/true", []⟩ (newCmdController 0) (.killOp 1 none)).1.Finished = true) ∧
    ((newCmdController 0).Finished = true →
      ctrlApply ⟨"/bin/true", []⟩ (newCmdController 0) (.killOp 1 none) = (newCmdController 0, [])) :=
  ctrl_flags_monotone_finished_stable ⟨"/bin/true", []⟩ (newCmdController 0)
    (.killOp 1 none) (CtrlReach.init 0) trivial

/-- Claim C4: on every reachable controller, killing twice equals killing
once — the second `Kill` leaves the state unchanged and emits nothing, and
at most one `cmd_finished` event is emitted across both calls. -/
theorem kill_twice_idempotent (cmd : Cmd) (c : CmdController)
    (h : CtrlReach cmd c) (t1 t2 : Nat) (k1 k2 : Option String) :
    (cmdCtrlKill cmd t2 k2 (cmdCtrlKill cmd t1 k1 c).1).1 = (cmdCtrlKill cmd t1 k1 c).1 ∧
    (cmdCtrlKill cmd t2 k2 (cmdCtrlKill cmd t1 k1 c).1).2 = [] ∧
    countFinishedEvents
      ((cmdCtrlKill cmd t1 k1 c).2 ++ (cmdCtrlKill cmd t2 k2 (cmdCtrlKill cmd t1 k1 c).1).2) ≤ 1 := by
  have hinv := ctrlReach_finished_started h
  cases hs : c.Started <;> cases hf : c.Finished
  · simp [cmdCtrlKill, hs, hf, countFinishedEvents]
  · exact absurd (hinv hf) (by simp [hs])
  · cases hp : c.Process <;>
      simp [cmdCtrlKill, hs, hf, hp, countFinishedEvents, newCmdFinishedEvent, newEvent]
  · simp [cmdCtrlKill, hs, hf, countFinishedEvents]

/-- Witness for claim C4: killing a started, unfinished controller twice. -/
theorem kill_twice_idempotent_witness :
    (cmdCtrlKill ⟨"/bin/true", []⟩ 2 none
        (cmdCtrlKill ⟨"/bin/true", []⟩ 1 none (newCmdController 0)).1).1
      = (cmdCtrlKill ⟨"/bin/true", []⟩ 1 none (newCmdController 0)).1 ∧
    (cmdCtrlKill ⟨"/bin/true", []⟩ 2 none
        (cmdCtrlKill ⟨"/bin/true", []⟩ 1 none (newCmdController 0)).1).2 = [] ∧
    countFinishedEvents
      ((cmdCtrlKill ⟨"/bin/true", []⟩ 1 none (newCmdController 0)).2 ++
        (cmdCtrlKill ⟨"/bin/true", []⟩ 2 none
          (cmdCtrlKill ⟨"/bin/true", []⟩ 1 none (newCmdController 0)).1).2) ≤ 1 :=
  kill_twice_idempotent ⟨"/bin/true", []⟩ (newCmdController 0)
    (CtrlReach.init 0) 1 2 none none

/-- Claim C5: `Run` on a controller already started or finished returns
success immediately, emits no event, and leaves the state unchanged. -/
theorem run_reentry_guard (cmd : Cmd) (t1 t2 t3 : Nat)
    (startErr waitErr : Option String) (c : CmdController)
    (h : c.Started = true ∨ c.Finished = true) :
    cmdControllerRun cmd t1 t2 t3 startErr waitErr c = (c, [], true) := by
  have hg : (c.Started || c.Finished) = true := by
    rcases h with h | h <;> simp [h]
  simp [cmdControllerRun, cmdCtrlRunEnter, hg]

/-- Witness for claim C5: re-entering `Run` on a killed-before-start
controller. -/
theorem run_reentry_guard_witness :
    ((cmdCtrlKill ⟨"/bin/true", []⟩ 1 none (newCmdController 0)).1.Started = true ∨
      (cmdCtrlKill ⟨"/bin/true", []⟩ 1 none (newCmdController 0)).1.Finished = true) ∧
    cmdControllerRun ⟨"/bin/true", []⟩ 2 3 4 none none
        (cmdCtrlKill ⟨"/bin/true", []⟩ 1 none (newCmdController 0)).1
      = ((cmdCtrlKill ⟨"/bin/true", []⟩ 1 none (newCmdController 0)).1, [], true) :=
  ⟨Or.inl (by decide),
    run_reentry_guard ⟨"/bin/true", []⟩ 2 3 4 none none _ (Or.inl (by decide))⟩

/-- Claim C6: when the process launch fails, `Run` marks the controller
finished, emits a `cmd_finished` event whose "err" field carries the
start-failure error string, and returns false. -/
theorem run_start_failure (cmd : Cmd) (t1 t2 t3 : Nat) (e : String)
    (waitErr : Option String) (c : CmdController)
    (hs : c.Started = false) (hf : c.Finished = false) :
    cmdControllerRun cmd t1 t2 t3 (some e) waitErr c =
      ({ c with Started := true, Finished := true, StartTime := t1 },
        [newCmdStartedEvent t1 cmd,
          newCmdFinishedEvent t2 cmd t1
            (some ("command could not start: " ++ cmdString cmd ++ ": " ++ e))],
        false) ∧
    eventErr (newCmdFinishedEvent t2 cmd t1
        (some ("command could not start: " ++ cmdString cmd ++ ": " ++ e)))
      = some ("command could not start: " ++ cmdString cmd ++ ": " ++ e) := by
  constructor
  · simp [cmdControllerRun, cmdCtrlRunEnter, hs, hf]
  · simp [eventErr, newCmdFinishedEvent, newEvent, List.lookup]

/-- Witness for claim C6: a fresh controller whose launch fails. -/
theorem run_start_failure_witness :
    cmdControllerRun ⟨"/bin/x", []⟩ 1 2 3 (some "file does not exist") none
        (newCmdController 0) =
      ({ newCmdController 0 with Started := true, Finished := true, StartTime := 1 },
        [newCmdStartedEvent 1 ⟨"/bin/x", []⟩,
          newCmdFinishedEvent 2 ⟨"/bin/x", []⟩ 1
            (some ("command could not start: " ++ cmdString ⟨"/bin/x", []⟩ ++ ": " ++
              "file does not exist"))],
        false) ∧
    eventErr (newCmdFinishedEvent 2 ⟨"/bin/x", []⟩ 1
        (some ("command could not start: " ++ cmdString ⟨"/bin/x", []⟩ ++ ": " ++
          "file does not exist")))
      = some ("command could not start: " ++ cmdString ⟨"/bin/x", []⟩ ++ ": " ++
          "file does not exist") :=
  run_start_failure ⟨"/bin/x", []⟩ 1 2 3 "file does not exist" none
    (newCmdController 0) rfl rfl

/-- Claim C7: `Kill` on a never-started controller marks it both started
and finished and emits nothing, and any later `Run` on it returns success
immediately without starting the command or emitting anything. -/
theorem kill_before_start (cmd : Cmd) (t : Nat) (killErr : Option String)
    (c : CmdController) (hs : c.Started = false) :
    cmdCtrlKill cmd t killErr c = ({ c with Started := true, Finished := true }, []) ∧
    (∀ t1 t2 t3 startErr waitErr,
      cmdControllerRun cmd t1 t2 t3 startErr waitErr (cmdCtrlKill cmd t killErr c).1
        = ((cmdCtrlKill cmd t killErr c).1, [], true)) := by
  have hk : cmdCtrlKill cmd t killErr c = ({ c with Started := true, Finished := true }, []) := by
    simp [cmdCtrlKill, hs]
  refine ⟨hk, fun t1 t2 t3 se we => ?_⟩
  rw [hk]
  exact run_reentry_guard cmd t1 t2 t3 se we _ (Or.inl rfl)

/-- Witness for claim C7: a fresh controller killed before starting. -/
theorem kill_before_start_witness :
    cmdCtrlKill ⟨"/bin/true", []⟩ 5 none (newCmdController 0)
      = ({ newCmdController 0 with Started := true, Finished := true }, []) ∧
    (∀ t1 t2 t3 startErr waitErr,
      cmdControllerRun ⟨"/bin/true", []⟩ t1 t2 t3 startErr waitErr
          (cmdCtrlKill ⟨"/bin/true", []⟩ 5 none (newCmdController 0)).1
        = ((cmdCtrlKill ⟨"/bin/true", []⟩ 5 none (newCmdController 0)).1, [], true)) :=
  kill_before_start ⟨"/bin/true", []⟩ 5 none (newCmdController 0) rfl

/-- Claim C8: a semaphore built with capacity `n ≤ 0` is the nil channel,
and `P(k)` and `V(k)` on it return immediately (never block) for every
`k`, leaving it unchanged. -/
theorem nil_semaphore_noop (n : Int) (h : n ≤ 0) (k : Nat) :
    semaphoreP (newSemaphore n) k = some (newSemaphore n) ∧
    semaphoreV (newSemaphore n) k = some (newSemaphore n) := by
  simp [newSemaphore, h, semaphoreP, semaphoreV]

/-- Witness for claim C8 at capacity 0 and five requested permits. -/
theorem nil_semaphore_noop_witness :
    semaphoreP (newSemaphore 0) 5 = some (newSemaphore 0) ∧
    semaphoreV (newSemaphore 0) 5 = some (newSemaphore 0) :=
  nil_semaphore_noop 0 (by decide) 5

/-- Claim C9: killing a started, unfinished controller whose process
exists, when the OS kill succeeds, emits a `cmd_finished` event with no
"err" field, and the pending `Run`'s post-wait section then returns true
without emitting, so the command is not recorded as a failure. -/
theorem kill_success_not_failure (cmd : Cmd) (t : Nat) (c : CmdController)
    (hs : c.Started = true) (hf : c.Finished = false) (hp : c.Process = true) :
    (cmdCtrlKill cmd t none c).2 = [newCmdFinishedEvent t cmd c.StartTime none] ∧
    eventErr (newCmdFinishedEvent t cmd c.StartTime none) = none ∧
    (∀ t' waitErr,
      cmdCtrlRunExit cmd t' waitErr (cmdCtrlKill cmd t none c).1
        = ((cmdCtrlKill cmd t none c).1, [], true)) := by
  refine ⟨by simp [cmdCtrlKill, hs, hf, hp], ?_, fun t' we => ?_⟩
  · simp [eventErr, newCmdFinishedEvent, newEvent, List.lookup]
  · have hfin : (cmdCtrlKill cmd t none c).1.Finished = true := by
      simp [cmdCtrlKill, hs, hf, hp]
    simp [cmdCtrlRunExit, hfin]

/-- Witness for claim C9: a launched controller killed mid-flight. -/
theorem kill_success_not_failure_witness :
    (cmdCtrlKill ⟨"/bin/sleep", ["5"]⟩ 7 none ⟨true, false, true, 3⟩).2
      = [newCmdFinishedEvent 7 ⟨"/bin/sleep", ["5"]⟩ 3 none] ∧
    eventErr (newCmdFinishedEvent 7 ⟨"/bin/sleep", ["5"]⟩ 3 none) = none ∧
    (∀ t' waitErr,
      cmdCtrlRunExit ⟨"/bin/sleep", ["5"]⟩ t' waitErr
          (cmdCtrlKill ⟨"/bin/sleep", ["5"]⟩ 7 none ⟨true, false, true, 3⟩).1
        = ((cmdCtrlKill ⟨"/bin/sleep", ["5"]⟩ 7 none ⟨true, false, true, 3⟩).1, [], true)) :=
  kill_success_not_failure ⟨"/bin/sleep", ["5"]⟩ 7 ⟨true, false, true, 3⟩ rfl rfl rfl

/-- Claim C10: the "cmd" field of `cmd_started` and `cmd_finished` events
is the command's `Path` followed by all of its `Args` joined with single
spaces; for a command built by `exec.Command` (which puts the path at
`Args[0]`), the path therefore appears twice. -/
theorem cmd_field_path_twice (t t' st : Nat) (er : Option String)
    (name : String) (args : List String) :
    (newCmdStartedEvent t (execCommand name args)).F.lookup "cmd"
      = some (cmdString (execCommand name args)) ∧
    (newCmdFinishedEvent t' (execCommand name args) st er).F.lookup "cmd"
      = some (cmdString (execCommand name args)) ∧
    cmdString (execCommand name args)
      = String.intercalate " " (name :: name :: args) := by
  refine ⟨?_, ?_, rfl⟩
  · simp [newCmdStartedEvent, newEvent, List.lookup]
  · simp [newCmdFinishedEvent, newEvent, List.lookup]

/-- Program counter of a per-command worker goroutine (lib.go lines
278-290): acquire the semaphore, run the controller (two lock-protected
sections around `Wait`), on failure write the shared error and, under
fast-fail, send on `doneC`; then `waitGroup.Done()` and release the
semaphore. -/
inductive WPC where
  | atAcquire
  | atRunEnter
  | atRunExit
  | atSetErr
  | atSendDone
  | atDone
  | atRelease
  | exited
deriving DecidableEq, Repr

/-- Program counter of the main goroutine of `runner.Run`: emit the
started event and spawn, wait on `doneC`, sweep `Kill` over the
controllers in order, emit the finished event and return. -/
inductive MainPC where
  | atStart
  | atWait
  | killing (i : Nat)
  | returned
deriving DecidableEq, Repr

/-- Program counter of the signal-watcher goroutine (lib.go lines
262-268): once a signal is delivered, write the interrupted error and send
on `doneC`. -/
inductive SigPC where
  | idle
  | delivered
  | atSend
  | exited
deriving DecidableEq, Repr

/-- Program counter of the all-done aggregator goroutine (lib.go lines
292-298): wait for the `WaitGroup` to drain, then send on `doneC`. -/
inductive AggPC where
  | waiting
  | atSend
  | exited
deriving DecidableEq, Repr

/-- The shared outcome variable `err` of `runner.Run`: nil, the
command-failed sentinel, or the interrupted sentinel. -/
inductive RErr where
  | noErr
  | cmdFailed
  | interrupted
deriving DecidableEq, Repr

/-- The error string recorded in the run-finished event for each outcome
(`errCmdFailed` and `errInterrupted` in lib.go). -/
def errToOption : RErr → Option String
  | .noErr => none
  | .cmdFailed => some "command failed"
  | .interrupted => some "interrupted"

/-- The fixed inputs of one `runner.Run` call: the command list, the
options that matter to control flow, and the environment's answers to
`Start`, `Wait` and `Process.Kill` for each command index. -/
structure RunnerEnv where
  cmds : List Cmd
  FastFail : Bool
  MaxConcurrentCmds : Int
  startErr : Nat → Option String
  waitErr : Nat → Option String
  killErr : Nat → Option String

/-- Global state of an in-progress `runner.Run`: controller states, all
goroutine program counters, the semaphore, the `WaitGroup` counter, the
shared outcome, the clock, the recorded start time, and the events emitted
so far in emission order. -/
structure RunnerState where
  ctrls : List CmdController
  wpc : List WPC
  pcMain : MainPC
  pcSig : SigPC
  pcAgg : AggPC
  sem : Semaphore
  counter : Nat
  err : RErr
  clock : Nat
  startT : Nat
  events : List Event

/-- The state right after `runner.Run`'s setup (lib.go lines 253-271): one
fresh controller per command (each construction reads the clock once), the
signal watcher registered, the semaphore built from `MaxConcurrentCmds`,
and the `WaitGroup` sized to the command count. -/
def initState (env : RunnerEnv) : RunnerState where
  ctrls := (List.range env.cmds.length).map (fun i => newCmdController i)
  wpc := List.replicate env.cmds.length .atAcquire
  pcMain := .atStart
  pcSig := .idle
  pcAgg := .waiting
  sem := newSemaphore env.MaxConcurrentCmds
  counter := env.cmds.length
  err := .noErr
  clock := env.cmds.length
  startT := 0
  events := []

/-- One atomic action of the interleaving semantics of `runner.Run`:
a step of the main goroutine, the signal watcher (including the external
signal delivery), the aggregator, or one worker. -/
inductive RAct where
  | mainStart
  | deliverSignal
  | sigWrite
  | recvSig
  | recvAgg
  | recvWorker (i : Nat)
  | killStep
  | mainFinish
  | acquire (i : Nat)
  | runEnterStep (i : Nat)
  | runExitStep (i : Nat)
  | setErrStep (i : Nat)
  | workerDone (i : Nat)
  | releaseStep (i : Nat)
  | aggReady
deriving DecidableEq, Repr

/-- One step of the interleaving semantics.  `none` means the chosen
action is not enabled in this state (the goroutine is blocked or not at
that program point).  Worker and aggregator actions are gated on the main
goroutine having passed its spawn point; `doneC` is unbuffered, so each
send pairs with the main goroutine's single receive. -/
def step (env : RunnerEnv) (s : RunnerState) : RAct → Option RunnerState
  | .mainStart =>
    match s.pcMain with
    | .atStart =>
      some { s with
        pcMain := .atWait
        startT := s.clock
        clock := s.clock + 1
        events := s.events ++ [newStartedEvent s.clock] }
    | _ => none
  | .deliverSignal =>
    match s.pcSig with
    | .idle => some { s with pcSig := .delivered }
    | _ => none
  | .sigWrite =>
    match s.pcSig with
    | .delivered => some { s with pcSig := .atSend, err := .interrupted }
    | _ => none
  | .recvSig =>
    match s.pcMain, s.pcSig with
    | .atWait, .atSend => some { s with pcMain := .killing 0, pcSig := .exited }
    | _, _ => none
  | .recvAgg =>
    match s.pcMain, s.pcAgg with
    | .atWait, .atSend => some { s with pcMain := .killing 0, pcAgg := .exited }
    | _, _ => none
  | .recvWorker i =>
    match s.pcMain, s.wpc[i]? with
    | .atWait, some .atSendDone =>
      some { s with pcMain := .killing 0, wpc := s.wpc.set i .atDone }
    | _, _ => none
  | .killStep =>
    match s.pcMain with
    | .killing i =>
      match s.ctrls[i]?, env.cmds[i]? with
      | some c, some cmd =>
        let r := cmdCtrlKill cmd s.clock (env.killErr i) c
        some { s with
          pcMain := .killing (i + 1)
          ctrls := s.ctrls.set i r.1
          clock := s.clock + r.2.length
          events := s.events ++ r.2 }
      | _, _ => none
    | _ => none
  | .mainFinish =>
    match s.pcMain with
    | .killing i =>
      if i = env.cmds.length then
        some { s with
          pcMain := .returned
          clock := s.clock + 1
          events := s.events ++ [newFinishedEvent s.clock s.startT (errToOption s.err)] }
      else none
    | _ => none
  | .acquire i =>
    if s.pcMain = .atStart then none else
    match s.wpc[i]? with
    | some .atAcquire =>
      match semaphoreP s.sem 1 with
      | some sem' => some { s with sem := sem', wpc := s.wpc.set i .atRunEnter }
      | none => none
    | _ => none
  | .runEnterStep i =>
    if s.pcMain = .atStart then none else
    match s.wpc[i]?, s.ctrls[i]?, env.cmds[i]? with
    | some .atRunEnter, some c, some cmd =>
      let r := cmdCtrlRunEnter cmd s.clock (s.clock + 1) (env.startErr i) c
      let bump : Nat :=
        match r.2.2 with
        | .alreadyDone => 0
        | .launched => 1
        | .startFailed => 2
      let w : WPC :=
        match r.2.2 with
        | .alreadyDone => .atDone
        | .launched => .atRunExit
        | .startFailed => .atSetErr
      some { s with
        ctrls := s.ctrls.set i r.1
        clock := s.clock + bump
        events := s.events ++ r.2.1
        wpc := s.wpc.set i w }
    | _, _, _ => none
  | .runExitStep i =>
    if s.pcMain = .atStart then none else
    match s.wpc[i]?, s.ctrls[i]?, env.cmds[i]? with
    | some .atRunExit, some c, some cmd =>
      let r := cmdCtrlRunExit cmd s.clock (env.waitErr i) c
      some { s with
        ctrls := s.ctrls.set i r.1
        clock := s.clock + 1
        events := s.events ++ r.2.1
        wpc := s.wpc.set i (if r.2.2 then .atDone else .atSetErr) }
    | _, _, _ => none
  | .setErrStep i =>
    if s.pcMain = .atStart then none else
    match s.wpc[i]? with
    | some .atSetErr =>
      some { s with
        err := .cmdFailed
        wpc := s.wpc.set i (if env.FastFail then .atSendDone else .atDone) }
    | _ => none
  | .workerDone i =>
    if s.pcMain = .atStart then none else
    match s.wpc[i]? with
    | some .atDone =>
      some { s with counter := s.counter - 1, wpc := s.wpc.set i .atRelease }
    | _ => none
  | .releaseStep i =>
    if s.pcMain = .atStart then none else
    match s.wpc[i]? with
    | some .atRelease =>
      match semaphoreV s.sem 1 with
      | some sem' => some { s with sem := sem', wpc := s.wpc.set i .exited }
      | none => none
    | _ => none
  | .aggReady =>
    if s.pcMain = .atStart then none else
    match s.pcAgg, s.counter with
    | .waiting, 0 => some { s with pcAgg := .atSend }
    | _, _ => none

/-- Run a schedule of atomic actions from a state; `none` when some
scheduled action is not enabled. -/
def runActs (env : RunnerEnv) : RunnerState → List RAct → Option RunnerState
  | s, [] => some s
  | s, a :: as =>
    match step env s a with
    | some s' => runActs env s' as
    | none => none

/-- All kinds in a list are command-level (`cmd_started`/`cmd_finished`). -/
def allCmdKinds : List EventType → Bool
  | [] => true
  | k :: rest => (k == .cmdStarted || k == .cmdFinished) && allCmdKinds rest

/-- A middle segment followed by exactly a run-finished kind. -/
def midThenFin : List EventType → Bool
  | [] => false
  | [k] => k == .finished
  | k :: rest => (k == .cmdStarted || k == .cmdFinished) && midThenFin rest

/-- The event sequence of one completed `Run`: a run-started kind first,
command-level kinds in the middle, a run-finished kind last. -/
def eventsShapeOK (es : List Event) : Bool :=
  match es.map Event.E with
  | .started :: rest => midThenFin rest
  | _ => false

theorem allCmdKinds_append (l1 l2 : List EventType) :
    allCmdKinds (l1 ++ l2) = (allCmdKinds l1 && allCmdKinds l2) := by
  induction l1 with
  | nil => simp [allCmdKinds]
  | cons k rest ih => simp [allCmdKinds, ih, Bool.and_assoc]

theorem midThenFin_of_allCmdKinds {mid : List EventType}
    (h : allCmdKinds mid = true) : midThenFin (mid ++ [.finished]) = true := by
  induction mid with
  | nil => simp [midThenFin]
  | cons k rest ih =>
    simp only [allCmdKinds, Bool.and_eq_true] at h
    cases rest with
    | nil => simp_all [midThenFin, allCmdKinds]
    | cons k2 rest2 => simp_all [midThenFin]

theorem cmdCtrlRunEnter_kinds (cmd : Cmd) (t1 t2 : Nat) (se : Option String)
    (c : CmdController) :
    allCmdKinds ((cmdCtrlRunEnter cmd t1 t2 se c).2.1.map Event.E) = true := by
  by_cases hg : (c.Started || c.Finished) = true
  · simp [cmdCtrlRunEnter, hg, allCmdKinds]
  · cases se <;>
      simp [cmdCtrlRunEnter, hg, allCmdKinds, newCmdStartedEvent, newCmdFinishedEvent, newEvent]

theorem cmdCtrlRunExit_kinds (cmd : Cmd) (t : Nat) (we : Option String)
    (c : CmdController) :
    allCmdKinds ((cmdCtrlRunExit cmd t we c).2.1.map Event.E) = true := by
  cases hf : c.Finished <;>
    simp [cmdCtrlRunExit, hf, allCmdKinds, newCmdFinishedEvent, newEvent]

theorem cmdCtrlKill_kinds (cmd : Cmd) (t : Nat) (ke : Option String)
    (c : CmdController) :
    allCmdKinds ((cmdCtrlKill cmd t ke c).2.map Event.E) = true := by
  cases hs : c.Started
  · simp [cmdCtrlKill, hs, allCmdKinds]
  · cases hf : c.Finished
    · cases hp : c.Process <;>
        simp [cmdCtrlKill, hs, hf, hp, allCmdKinds, newCmdFinishedEvent, newEvent]
    · simp [cmdCtrlKill, hs, hf, allCmdKinds]

/-- A `Run` entry section on an already-finished controller is a no-op. -/
theorem cmdCtrlRunEnter_finished (cmd : Cmd) (t1 t2 : Nat) (se : Option String)
    {c : CmdController} (hf : c.Finished = true) :
    cmdCtrlRunEnter cmd t1 t2 se c = (c, [], .alreadyDone) := by
  simp [cmdCtrlRunEnter, hf]

/-- A `Run` exit section on an already-finished controller is a no-op. -/
theorem cmdCtrlRunExit_finished (cmd : Cmd) (t : Nat) (we : Option String)
    {c : CmdController} (hf : c.Finished = true) :
    cmdCtrlRunExit cmd t we c = (c, [], true) := by
  simp [cmdCtrlRunExit, hf]

/-- After any `Kill` section the controller is finished. -/
theorem cmdCtrlKill_finishes (cmd : Cmd) (t : Nat) (ke : Option String)
    (c : CmdController) : (cmdCtrlKill cmd t ke c).1.Finished = true := by
  cases hs : c.Started
  · simp [cmdCtrlKill, hs]
  · cases hf : c.Finished
    · cases hp : c.Process <;> simp [cmdCtrlKill, hs, hf, hp]
    · simp [cmdCtrlKill, hs, hf]

/-- `Run`'s entry section never un-finishes a controller. -/
theorem cmdCtrlRunEnter_fin_mono (cmd : Cmd) (t1 t2 : Nat) (se : Option String)
    {c : CmdController} (hf : c.Finished = true) :
    (cmdCtrlRunEnter cmd t1 t2 se c).1.Finished = true := by
  rw [cmdCtrlRunEnter_finished cmd t1 t2 se hf]; exact hf

/-- `Run`'s exit section never un-finishes a controller. -/
theorem cmdCtrlRunExit_fin_mono (cmd : Cmd) (t : Nat) (we : Option String)
    {c : CmdController} (hf : c.Finished = true) :
    (cmdCtrlRunExit cmd t we c).1.Finished = true := by
  rw [cmdCtrlRunExit_finished cmd t we hf]; exact hf

/-- Updating index `i0` with a finish-preserving new value keeps every
index below `i` finished. -/
theorem set_preserves_finished_below {ctrls : List CmdController} {i0 i : Nat}
    {c c' : CmdController} (hc : ctrls[i0]? = some c)
    (himp : c.Finished = true → c'.Finished = true)
    (h : ∀ j cc, j < i → ctrls[j]? = some cc → cc.Finished = true) :
    ∀ j cc, j < i → (ctrls.set i0 c')[j]? = some cc → cc.Finished = true := by
  intro j cc hj hget
  by_cases hji : j = i0
  · subst hji
    rw [List.getElem?_set_self (by rw [List.getElem?_eq_some] at hc; exact hc.1)] at hget
    cases hget
    exact himp (h j c hj hc)
  · rw [List.getElem?_set_ne (fun he => hji he.symm)] at hget
    exact h j cc hj hget

/-- Updating index `i0` with a finish-preserving new value keeps every
index finished. -/
theorem set_preserves_finished_all {ctrls : List CmdController} {i0 : Nat}
    {c c' : CmdController} (hc : ctrls[i0]? = some c)
    (himp : c.Finished = true → c'.Finished = true)
    (h : ∀ (j : Nat) (cc : CmdController), ctrls[j]? = some cc → cc.Finished = true) :
    ∀ (j : Nat) (cc : CmdController), (ctrls.set i0 c')[j]? = some cc → cc.Finished = true := by
  intro j cc hget
  by_cases hji : j = i0
  · subst hji
    rw [List.getElem?_set_self (by rw [List.getElem?_eq_some] at hc; exact hc.1)] at hget
    cases hget
    exact himp (h j c hc)
  · rw [List.getElem?_set_ne (fun he => hji he.symm)] at hget
    exact h j cc hget

/-- The event log starts with the run-started kind and otherwise holds only
command-level kinds so far. -/
def midShape (es : List Event) : Prop :=
  ∃ mid, es.map Event.E = .started :: mid ∧ allCmdKinds mid = true

theorem midShape_append {es : List Event} (evs : List Event)
    (h : midShape es) (hevs : allCmdKinds (evs.map Event.E) = true) :
    midShape (es ++ evs) := by
  obtain ⟨mid, hmap, hmid⟩ := h
  exact ⟨mid ++ evs.map Event.E, by simp [hmap],
    by rw [allCmdKinds_append]; simp [hmid, hevs]⟩

/-- The inductive invariant of the runner semantics: list lengths match the
command count, and the event log and controller states agree with the main
goroutine's progress — empty before the started event; started-headed with
command-level middle while running; killed up to the sweep index during the
sweep; fully bracketed with every controller finished after the return. -/
def RInv (env : RunnerEnv) (s : RunnerState) : Prop :=
  s.ctrls.length = env.cmds.length ∧
  s.wpc.length = env.cmds.length ∧
  match s.pcMain with
  | .atStart => s.events = []
  | .atWait => midShape s.events
  | .killing i =>
    i ≤ env.cmds.length ∧ midShape s.events ∧
      ∀ (j : Nat) (c : CmdController), j < i → s.ctrls[j]? = some c → c.Finished = true
  | .returned =>
    (∃ mid, s.events.map Event.E = .started :: (mid ++ [.finished]) ∧
      allCmdKinds mid = true) ∧
      ∀ (j : Nat) (c : CmdController), s.ctrls[j]? = some c → c.Finished = true

theorem initState_RInv (env : RunnerEnv) : RInv env (initState env) := by
  refine ⟨by simp [initState], by simp [initState], ?_⟩
  simp [initState]

/-- The invariant only looks at `ctrls`, the `wpc` length, `pcMain` and
`events`; steps that change none of them preserve it. -/
theorem RInv_congr (env : RunnerEnv) (s s' : RunnerState)
    (hc : s'.ctrls = s.ctrls) (hw : s'.wpc.length = s.wpc.length)
    (hp : s'.pcMain = s.pcMain) (he : s'.events = s.events)
    (h : RInv env s) : RInv env s' := by
  obtain ⟨h1, h2, h3⟩ := h
  refine ⟨hc ▸ h1, hw ▸ h2, ?_⟩
  rw [hp, hc, he]
  exact h3

/-- Every enabled step preserves the runner invariant. -/
theorem step_RInv (env : RunnerEnv) {s s' : RunnerState} {a : RAct}
    (hinv : RInv env s) (hstep : step env s a = some s') : RInv env s' := by
  obtain ⟨h1, h2, h3⟩ := hinv
  cases a with
  | mainStart =>
    simp only [step] at hstep
    split at hstep
    case _ hpm =>
      injection hstep with hs'
      subst hs'
      rw [hpm] at h3
      simp only at h3
      refine ⟨h1, h2, ?_⟩
      simp only [RInv]
      rw [h3]
      exact ⟨[], by simp [newStartedEvent, newEvent], rfl⟩
    case _ => exact absurd hstep (by simp)
  | deliverSignal =>
    simp only [step] at hstep
    split at hstep
    case _ =>
      injection hstep with hs'
      subst hs'
      exact RInv_congr env s _ rfl rfl rfl rfl ⟨h1, h2, h3⟩
    case _ => exact absurd hstep (by simp)
  | sigWrite =>
    simp only [step] at hstep
    split at hstep
    case _ =>
      injection hstep with hs'
      subst hs'
      exact RInv_congr env s _ rfl rfl rfl rfl ⟨h1, h2, h3⟩
    case _ => exact absurd hstep (by simp)
  | recvSig =>
    simp only [step] at hstep
    split at hstep
    case _ hpm _ =>
      injection hstep with hs'
      subst hs'
      rw [hpm] at h3
      simp only at h3
      exact ⟨h1, h2, Nat.zero_le _, h3, fun j c hj => absurd hj (Nat.not_lt_zero j)⟩
    case _ => exact absurd hstep (by simp)
  | recvAgg =>
    simp only [step] at hstep
    split at hstep
    case _ hpm _ =>
      injection hstep with hs'
      subst hs'
      rw [hpm] at h3
      simp only at h3
      exact ⟨h1, h2, Nat.zero_le _, h3, fun j c hj => absurd hj (Nat.not_lt_zero j)⟩
    case _ => exact absurd hstep (by simp)
  | recvWorker i =>
    simp only [step] at hstep
    split at hstep
    case _ hpm hw =>
      injection hstep with hs'
      subst hs'
      rw [hpm] at h3
      simp only at h3
      exact ⟨h1, by simpa using h2, Nat.zero_le _, h3,
        fun j c hj => absurd hj (Nat.not_lt_zero j)⟩
    case _ => exact absurd hstep (by simp)
  | killStep =>
    simp only [step] at hstep
    split at hstep
    case _ i hpm =>
      split at hstep
      case _ c cmd hc hcmd =>
        injection hstep with hs'
        subst hs'
        rw [hpm] at h3
        simp only at h3
        obtain ⟨hiN, hshape, hbelow⟩ := h3
        have hilt : i < env.cmds.length := by
          rw [List.getElem?_eq_some] at hcmd; exact hcmd.1
        refine ⟨by simpa using h1, h2, ?_⟩
        simp only [RInv]
        refine ⟨by omega, midShape_append _ hshape (cmdCtrlKill_kinds cmd s.clock (env.killErr i) c), ?_⟩
        intro j cc hj hget
        by_cases hji : j = i
        · subst hji
          rw [List.getElem?_set_self (by rw [List.getElem?_eq_some] at hc; exact hc.1)] at hget
          cases hget
          exact cmdCtrlKill_finishes _ _ _ _
        · rw [List.getElem?_set_ne (fun he => hji he.symm)] at hget
          exact hbelow j cc (by omega) hget
      case _ => exact absurd hstep (by simp)
    case _ => exact absurd hstep (by simp)
  | mainFinish =>
    simp only [step] at hstep
    split at hstep
    case _ i hpm =>
      split at hstep
      case _ hiN =>
        injection hstep with hs'
        subst hs'
        rw [hpm] at h3
        simp only at h3
        obtain ⟨_, hshape, hbelow⟩ := h3
        obtain ⟨mid, hmap, hmid⟩ := hshape
        refine ⟨h1, h2, ?_⟩
        simp only [RInv]
        refine ⟨⟨mid, by simp [hmap, newFinishedEvent, newEvent], hmid⟩, ?_⟩
        intro j c hget
        have hjlt : j < s.ctrls.length := by
          rw [List.getElem?_eq_some] at hget; exact hget.1
        exact hbelow j c (by omega) hget
      case _ => exact absurd hstep (by simp)
    case _ => exact absurd hstep (by simp)
  | acquire i =>
    simp only [step] at hstep
    split at hstep
    case _ => exact absurd hstep (by simp)
    case _ =>
      split at hstep
      case _ =>
        split at hstep
        case _ =>
          injection hstep with hs'
          subst hs'
          exact RInv_congr env s _ rfl (by simp) rfl rfl ⟨h1, h2, h3⟩
        case _ => exact absurd hstep (by simp)
      case _ => exact absurd hstep (by simp)
  | runEnterStep i =>
    simp only [step] at hstep
    split at hstep
    case _ => exact absurd hstep (by simp)
    case _ hnotstart =>
      split at hstep
      case _ c cmd hw hc hcmd =>
        injection hstep with hs'
        subst hs'
        refine ⟨by simpa using h1, by simpa using h2, ?_⟩
        have hkinds := cmdCtrlRunEnter_kinds cmd s.clock (s.clock + 1) (env.startErr i) c
        cases hpm : s.pcMain with
        | atStart => exact absurd rfl (hpm ▸ hnotstart)
        | atWait =>
          rw [hpm] at h3; simp only at h3
          simp only [RInv]
          exact midShape_append _ h3 hkinds
        | killing k =>
          rw [hpm] at h3; simp only at h3
          obtain ⟨hkN, hshape, hbelow⟩ := h3
          simp only [RInv]
          refine ⟨hkN, midShape_append _ hshape hkinds, ?_⟩
          exact set_preserves_finished_below hc
            (fun hf => cmdCtrlRunEnter_fin_mono cmd s.clock (s.clock + 1) (env.startErr i) hf)
            hbelow
        | returned =>
          rw [hpm] at h3; simp only at h3
          obtain ⟨hshape, hall⟩ := h3
          have hcfin : c.Finished = true := hall i c hc
          have hnoop := cmdCtrlRunEnter_finished cmd s.clock (s.clock + 1) (env.startErr i) hcfin
          simp only [RInv]
          constructor
          · rw [hnoop]
            simpa using hshape
          · exact set_preserves_finished_all hc
              (fun hf => cmdCtrlRunEnter_fin_mono cmd s.clock (s.clock + 1) (env.startErr i) hf)
              hall
      case _ => exact absurd hstep (by simp)
  | runExitStep i =>
    simp only [step] at hstep
    split at hstep
    case _ => exact absurd hstep (by simp)
    case _ hnotstart =>
      split at hstep
      case _ c cmd hw hc hcmd =>
        injection hstep with hs'
        subst hs'
        refine ⟨by simpa using h1, by simpa using h2, ?_⟩
        have hkinds := cmdCtrlRunExit_kinds cmd s.clock (env.waitErr i) c
        cases hpm : s.pcMain with
        | atStart => exact absurd rfl (hpm ▸ hnotstart)
        | atWait =>
          rw [hpm] at h3; simp only at h3
          simp only [RInv]
          exact midShape_append _ h3 hkinds
        | killing k =>
          rw [hpm] at h3; simp only at h3
          obtain ⟨hkN, hshape, hbelow⟩ := h3
          simp only [RInv]
          refine ⟨hkN, midShape_append _ hshape hkinds, ?_⟩
          exact set_preserves_finished_below hc
            (fun hf => cmdCtrlRunExit_fin_mono cmd s.clock (env.waitErr i) hf)
            hbelow
        | returned =>
          rw [hpm] at h3; simp only at h3
          obtain ⟨hshape, hall⟩ := h3
          have hcfin : c.Finished = true := hall i c hc
          have hnoop := cmdCtrlRunExit_finished cmd s.clock (env.waitErr i) hcfin
          simp only [RInv]
          constructor
          · rw [hnoop]
            simpa using hshape
          · exact set_preserves_finished_all hc
              (fun hf => cmdCtrlRunExit_fin_mono cmd s.clock (env.waitErr i) hf)
              hall
      case _ => exact absurd hstep (by simp)
  | setErrStep i =>
    simp only [step] at hstep
    split at hstep
    case _ => exact absurd hstep (by simp)
    case _ =>
      split at hstep
      case _ =>
        injection hstep with hs'
        subst hs'
        exact RInv_congr env s _ rfl (by simp) rfl rfl ⟨h1, h2, h3⟩
      case _ => exact absurd hstep (by simp)
  | workerDone i =>
    simp only [step] at hstep
    split at hstep
    case _ => exact absurd hstep (by simp)
    case _ =>
      split at hstep
      case _ =>
        injection hstep with hs'
        subst hs'
        exact RInv_congr env s _ rfl (by simp) rfl rfl ⟨h1, h2, h3⟩
      case _ => exact absurd hstep (by simp)
  | releaseStep i =>
    simp only [step] at hstep
    split at hstep
    case _ => exact absurd hstep (by simp)
    case _ =>
      split at hstep
      case _ =>
        split at hstep
        case _ =>
          injection hstep with hs'
          subst hs'
          exact RInv_congr env s _ rfl (by simp) rfl rfl ⟨h1, h2, h3⟩
        case _ => exact absurd hstep (by simp)
      case _ => exact absurd hstep (by simp)
  | aggReady =>
    simp only [step] at hstep
    split at hstep
    case _ => exact absurd hstep (by simp)
    case _ =>
      split at hstep
      case _ =>
        injection hstep with hs'
        subst hs'
        exact RInv_congr env s _ rfl rfl rfl rfl ⟨h1, h2, h3⟩
      case _ => exact absurd hstep (by simp)

/-- Running a schedule preserves the runner invariant. -/
theorem runActs_RInv (env : RunnerEnv) (acts : List RAct) :
    ∀ s s', RInv env s → runActs env s acts = some s' → RInv env s' := by
  induction acts with
  | nil =>
    intro s s' h hrun
    simp only [runActs] at hrun
    injection hrun with he
    subst he
    exact h
  | cons a as ih =>
    intro s s' h hrun
    simp only [runActs] at hrun
    cases hst : step env s a with
    | none => rw [hst] at hrun; exact absurd hrun (by simp)
    | some s1 =>
      rw [hst] at hrun
      exact ih s1 s' (step_RInv env h hst) hrun

/-- How one action updates the shared outcome variable: only the signal
watcher's write and a worker's command-failure write touch it. -/
def errUpd (e : RErr) : RAct → RErr
  | .sigWrite => .interrupted
  | .setErrStep _ => .cmdFailed
  | _ => e

/-- The value of the shared outcome after a schedule: last writer wins. -/
def errFold (e : RErr) (acts : List RAct) : RErr :=
  acts.foldl errUpd e

/-- Each enabled step updates the shared outcome exactly as `errUpd`
says. -/
theorem step_err (env : RunnerEnv) {s s' : RunnerState} {a : RAct}
    (h : step env s a = some s') : s'.err = errUpd s.err a := by
  cases a <;> simp only [step] at h <;> (repeat' split at h) <;>
    first
      | (injection h with h'; subst h'; rfl)
      | simp at h

/-- The shared outcome at the end of a schedule is the fold of the
per-action updates: the last unsynchronized writer wins. -/
theorem runActs_err (env : RunnerEnv) (acts : List RAct) :
    ∀ s s', runActs env s acts = some s' → s'.err = errFold s.err acts := by
  induction acts with
  | nil =>
    intro s s' hrun
    simp only [runActs] at hrun
    injection hrun with he
    subst he
    rfl
  | cons a as ih =>
    intro s s' hrun
    simp only [runActs] at hrun
    cases hst : step env s a with
    | none => rw [hst] at hrun; exact absurd hrun (by simp)
    | some s1 =>
      rw [hst] at hrun
      have := ih s1 s' hrun
      rw [this, step_err env hst]
      rfl

/-- Every controller of the run is finished. -/
def allCtrlsFinished (s : RunnerState) : Bool :=
  s.ctrls.all (·.Finished)

/-- Some controller is mid-flight: started but not finished. -/
def someMidFlight (s : RunnerState) : Bool :=
  s.ctrls.any (fun c => c.Started && !c.Finished)

/-- Claim C3: whenever a schedule drives `runner.Run` to its return point,
the emitted events are exactly one run-started event first, command-level
events in the middle, and exactly one run-finished event last. -/
theorem run_events_bracketed (env : RunnerEnv) (acts : List RAct)
    (h : (runActs env (initState env) acts).map RunnerState.pcMain = some .returned) :
    (runActs env (initState env) acts).map (fun s => eventsShapeOK s.events) = some true := by
  cases hrun : runActs env (initState env) acts with
  | none => rw [hrun] at h; exact absurd h (by simp)
  | some s =>
    rw [hrun] at h
    have hpm : s.pcMain = .returned := by simpa using h
    have hinv := runActs_RInv env acts (initState env) s (initState_RInv env) hrun
    obtain ⟨_, _, h3⟩ := hinv
    rw [hpm] at h3
    simp only at h3
    obtain ⟨⟨mid, hmap, hmid⟩, _⟩ := h3
    simp only [Option.map_some', Option.some.injEq]
    unfold eventsShapeOK
    rw [hmap]
    exact midThenFin_of_allCmdKinds hmid

/-- The environment of the no-command witness run. -/
def envNil : RunnerEnv :=
  ⟨[], false, 0, fun _ => none, fun _ => none, fun _ => none⟩

/-- Witness for claim C3: the empty command list, with the schedule
start → aggregator-drain → receive → finish. -/
theorem run_events_bracketed_witness :
    (runActs envNil (initState envNil)
        [.mainStart, .aggReady, .recvAgg, .mainFinish]).map RunnerState.pcMain
      = some .returned ∧
    (runActs envNil (initState envNil)
        [.mainStart, .aggReady, .recvAgg, .mainFinish]).map
        (fun s => eventsShapeOK s.events)
      = some true :=
  ⟨rfl, run_events_bracketed envNil [.mainStart, .aggReady, .recvAgg, .mainFinish] rfl⟩

/-- Claim C1, amended: if a schedule of `runner.Run` sees an external
interruption delivered while some command is mid-flight and the run
reaches its return point, then every controller — started or not — is
finished when `Run` returns, and the returned outcome is the last write
that the schedule applied to the shared error (the interruption error
only if no command-failure write landed after it). -/
theorem run_interrupted_amended (env : RunnerEnv) (pre post : List RAct)
    (_hmid : (runActs env (initState env) pre).map someMidFlight = some true)
    (hret : (runActs env (initState env) (pre ++ .deliverSignal :: post)).map
        RunnerState.pcMain = some .returned) :
    (runActs env (initState env) (pre ++ .deliverSignal :: post)).map
        (fun s => (allCtrlsFinished s, s.err))
      = some (true, errFold .noErr (pre ++ .deliverSignal :: post)) := by
  cases hrun : runActs env (initState env) (pre ++ .deliverSignal :: post) with
  | none => rw [hrun] at hret; exact absurd hret (by simp)
  | some s =>
    rw [hrun] at hret
    have hpm : s.pcMain = .returned := by simpa using hret
    have hinv := runActs_RInv env _ (initState env) s (initState_RInv env) hrun
    obtain ⟨_, _, h3⟩ := hinv
    rw [hpm] at h3
    simp only at h3
    obtain ⟨_, hall⟩ := h3
    have herr : s.err = errFold (initState env).err (pre ++ .deliverSignal :: post) :=
      runActs_err env _ _ _ hrun
    have hfin : allCtrlsFinished s = true := by
      unfold allCtrlsFinished
      rw [List.all_eq_true]
      intro c hc
      obtain ⟨j, hj⟩ := List.getElem?_of_mem hc
      exact hall j c hj
    have hinit : (initState env).err = .noErr := rfl
    rw [hinit] at herr
    simp [hfin, herr]

/-- The environment of the interruption-race counterexample: two commands,
fast-fail off, unbounded gate; command 1 exits non-zero, command 0 keeps
running. -/
def envCex : RunnerEnv where
  cmds := [⟨"/bin/sleep", ["5"]⟩, ⟨"/bin/false", []⟩]
  FastFail := false
  MaxConcurrentCmds := 0
  startErr := fun _ => none
  waitErr := fun i => if i = 1 then some "exit status 1" else none
  killErr := fun _ => none

/-- Schedule prefix: both commands launch, command 1 fails and its worker
is about to record the failure, command 0 is mid-flight. -/
def preCex : List RAct :=
  [.mainStart, .acquire 0, .runEnterStep 0, .acquire 1, .runEnterStep 1, .runExitStep 1]

/-- Schedule suffix after the signal delivery: the watcher records the
interruption and wakes the main goroutine, then worker 1's command-failure
write lands, then the kill sweep and the finish. -/
def postCex : List RAct :=
  [.sigWrite, .recvSig, .setErrStep 1, .killStep, .killStep, .mainFinish]

/-- Counterexample to claim C1 as stated: in this run the interruption is
delivered while command 0 is mid-flight and the run returns, yet the
returned outcome is the command-failure error, not the interruption
error — the worker's unsynchronized `err = errCmdFailed` write landed
after the signal watcher's `err = errInterrupted` write, exactly the race
the source comments on (lib.go lines 250-252). -/
theorem run_interrupted_counterexample :
    (runActs envCex (initState envCex) preCex).map someMidFlight = some true ∧
    (runActs envCex (initState envCex) (preCex ++ .deliverSignal :: postCex)).map
        RunnerState.pcMain = some .returned ∧
    (runActs envCex (initState envCex) (preCex ++ .deliverSignal :: postCex)).map
        RunnerState.err = some .cmdFailed :=
  ⟨rfl, rfl, rfl⟩

/-- Witness for the amended claim C1 at the same concrete interrupted
run. -/
theorem run_interrupted_amended_witness :
    (runActs envCex (initState envCex) preCex).map someMidFlight = some true ∧
    (runActs envCex (initState envCex) (preCex ++ .deliverSignal :: postCex)).map
        RunnerState.pcMain = some .returned ∧
    (runActs envCex (initState envCex) (preCex ++ .deliverSignal :: postCex)).map
        (fun s => (allCtrlsFinished s, s.err))
      = some (true, errFold .noErr (preCex ++ .deliverSignal :: postCex)) :=
  ⟨rfl, rfl, run_interrupted_amended envCex preCex postCex rfl rfl⟩

end ParallelExec
